import Mathlib

/-!
Shallow embedding of the `rag-extension-poc` gateway (Go sources
`main.go` and `config/info.go`) and proofs about its claims.

External effects (HTTP calls, JSON decoding, PEM/X.509 parsing, the
filesystem) are parameters of the embedded functions: each embedded
function receives the outcomes of its external calls as explicit
arguments and reproduces the source's control flow on them exactly.
-/

/-- The process environment, as Go's `os.Getenv` sees it: a total map from
variable name to value, where an unset variable reads as `""`. -/
abbrev Env := String → String

namespace Config

/-- Embeds `config.Info` from `config/info.go`. -/
structure Info where
  Port : String
  FQDN : String
  ClientID : String
  ClientSecret : String
deriving Repr, DecidableEq

/-- Embeds `config.New` from `config/info.go`.  Returns the lines printed to
standard output together with the result: each environment variable is
checked for emptiness in source order (PORT, FQDN, CLIENT_ID,
CLIENT_SECRET), an empty one aborts with an error naming it, and each
present one is echoed to standard output by `fmt.Println` before the next
check. -/
def New (env : Env) : List String × Except String Info :=
  let port := env "PORT"
  if port = "" then ([], .error "PORT environment variable required")
  else
    let fqdn := env "FQDN"
    if fqdn = "" then (["PORT: " ++ port], .error "FQDN environment variable required")
    else
      let clientID := env "CLIENT_ID"
      if clientID = "" then
        (["PORT: " ++ port, "FQDN: " ++ fqdn],
         .error "CLIENT_ID environment variable required")
      else
        let clientSecret := env "CLIENT_SECRET"
        if clientSecret = "" then
          (["PORT: " ++ port, "FQDN: " ++ fqdn, "CLIENT_ID: " ++ clientID],
           .error "CLIENT_SECRET environment variable required")
        else
          (["PORT: " ++ port, "FQDN: " ++ fqdn, "CLIENT_ID: " ++ clientID,
            "CLIENT_SECRET: " ++ clientSecret],
           .ok ⟨port, fqdn, clientID, clientSecret⟩)

end Config

/-- One entry of the key-listing response body, embedding the anonymous
struct in `fetchPublicKey` (`main.go`): `{Key string, IsCurrent bool}`. -/
structure KeyEntry where
  key : String
  isCurrent : Bool
deriving Repr, DecidableEq

/-- An HTTP response as `fetchPublicKey` consumes it: the numeric status
code, the display status string (`resp.Status`), and the body. -/
structure HttpResp where
  statusCode : Nat
  statusText : String
  body : String
deriving Repr, DecidableEq

/-- A decoded PEM block (the `block.Bytes` material that
`x509.ParsePKIXPublicKey` receives). -/
structure PemBlock where
  bytes : String
deriving Repr, DecidableEq

/-- An ECDSA public key, abstract: only its identity matters to the
control flow of `main.go`. -/
structure EcdsaKey where
  material : String
deriving Repr, DecidableEq

/-- The result of `x509.ParsePKIXPublicKey`: either an ECDSA public key
(the type assertion `key.(*ecdsa.PublicKey)` succeeds) or a key of some
other family (the assertion fails). -/
inductive ParsedKey where
  | ecdsa (k : EcdsaKey)
  | nonEcdsa
deriving Repr, DecidableEq

/-- Outcomes of the external calls made by `fetchPublicKey`: the HTTP
round trip (`client.Do`), the JSON decoder (yielding the `public_keys`
list), `pem.Decode`, and `x509.ParsePKIXPublicKey`. -/
structure FetchExt where
  doRes : Except String HttpResp
  jsonDecode : String → Except String (List KeyEntry)
  pemDecode : String → Option PemBlock
  parsePKIX : PemBlock → Except String ParsedKey

/-- Embeds the `for _, pk := range respBody.PublicKeys` loop of
`fetchPublicKey`: starting from `rawKey = ""`, take the `Key` of the first
entry whose `IsCurrent` is set and break. -/
def findCurrentKey : List KeyEntry → String
  | [] => ""
  | e :: rest => if e.isCurrent then e.key else findCurrentKey rest

/-- Embeds the tail of `fetchPublicKey` (`main.go` lines 122-141): undo the
JSON newline escaping, decode the PEM block, parse the PKIX structure and
insist on an ECDSA key. -/
def decodeCurrentKey (ext : FetchExt) (rawKey : String) : Except String EcdsaKey :=
  let pubPemStr := rawKey.replace "\\n" "\n"
  match ext.pemDecode pubPemStr with
  | none => .error "error parsing PEM block with GitHub public key"
  | some block =>
    match ext.parsePKIX block with
    | .error e => .error e
    | .ok (ParsedKey.ecdsa k) => .ok k
    | .ok ParsedKey.nonEcdsa => .error "GitHub key is not ECDSA"

/-- Embeds `fetchPublicKey` from `main.go`: fail if the HTTP call errors or
returns non-200, decode the JSON body, select the first current key, then
decode it as an ECDSA public key. -/
def fetchPublicKey (ext : FetchExt) : Except String EcdsaKey :=
  match ext.doRes with
  | .error e => .error ("failed to fetch public key: " ++ e)
  | .ok resp =>
    if resp.statusCode ≠ 200 then
      .error ("failed to fetch public key: " ++ resp.statusText)
    else
      match ext.jsonDecode resp.body with
      | .error e => .error ("failed to decode public key: " ++ e)
      | .ok entries =>
        let rawKey := findCurrentKey entries
        if rawKey = "" then .error "could not find current public key"
        else decodeCurrentKey ext rawKey

/-- Embeds the character loop of `stripXMLTags` (`main.go` lines 248-260),
with the `inTag` flag as an explicit argument: `<` turns the flag on and is
dropped, `>` turns it off and is dropped, any other character is written
exactly when the flag is off. -/
def stripChars (inTag : Bool) : List Char → List Char
  | [] => []
  | c :: rest =>
    if c = '<' then stripChars true rest
    else if c = '>' then stripChars false rest
    else if inTag then stripChars inTag rest
    else c :: stripChars inTag rest

/-- Go's `unicode.IsSpace`, the whitespace notion of `strings.TrimSpace`:
the Latin-1 space characters plus the Unicode White_Space code points. -/
def goIsSpace (c : Char) : Bool :=
  c.val = 0x20 || (0x9 ≤ c.val && c.val ≤ 0xD) || c.val = 0x85 || c.val = 0xA0 ||
  c.val = 0x1680 || (0x2000 ≤ c.val && c.val ≤ 0x200A) || c.val = 0x2028 ||
  c.val = 0x2029 || c.val = 0x202F || c.val = 0x205F || c.val = 0x3000

/-- Go's `strings.TrimSpace` on a character list: drop leading and trailing
characters satisfying `goIsSpace`. -/
def trimSpace (l : List Char) : List Char :=
  ((l.dropWhile goIsSpace).reverse.dropWhile goIsSpace).reverse

/-- Embeds `stripXMLTags` from `main.go`: run the tag-stripping loop with
the flag initially off, then trim surrounding whitespace. -/
def stripXMLTags (l : List Char) : List Char :=
  trimSpace (stripChars false l)

/-- Observable events of the gateway process: a key fetch
(`fetchPublicKey` being invoked), the registration of an HTTP route
(`http.HandleFunc`), and the server starting to listen
(`http.ListenAndServe`). -/
inductive Event where
  | keyFetch
  | handle (path : String)
  | listen (port : String)
deriving Repr, DecidableEq

/-- Outcomes of the external calls made by `run` beyond `config.New`: the
result of `fetchPublicKey` (the network is external), `url.Parse` applied
to the FQDN, and the error with which `http.ListenAndServe` eventually
returns (in Go it always returns a non-nil error when it returns). -/
structure RunExt where
  fetchRes : Except String EcdsaKey
  urlParse : String → Except String String
  listenErr : String

/-- What an execution of `run` produces: the lines printed to standard
output, the trace of observable events, the key installed into the agent
service (`agent.NewService(pubKey)`), and the returned error, if any. -/
structure RunOut where
  output : List String
  trace : List Event
  agentKey : Option EcdsaKey
  result : Except String Unit
deriving Repr

/-- Embeds `run` from `main.go`: fetch the public key, load the
configuration, parse the FQDN, register the three HTTP handlers with the
agent service holding the fetched key, then listen. Every early return
carries an error, and `http.ListenAndServe` returns an error whenever it
returns. -/
def run (ext : RunExt) (env : Env) : RunOut :=
  match ext.fetchRes with
  | .error e => ⟨[], [.keyFetch], none, .error ("failed to fetch public key: " ++ e)⟩
  | .ok pubKey =>
    match (Config.New env).2 with
    | .error e =>
      ⟨(Config.New env).1, [.keyFetch], none, .error ("error fetching config: " ++ e)⟩
    | .ok cfg =>
      match ext.urlParse cfg.FQDN with
      | .error e =>
        ⟨(Config.New env).1, [.keyFetch], none,
         .error ("unable to parse HOST environment variable: " ++ e)⟩
      | .ok _ =>
        ⟨(Config.New env).1 ++ ["Listening on port " ++ cfg.Port],
         [.keyFetch, .handle "/auth/authorization", .handle "/auth/callback",
          .handle "/agent", .listen cfg.Port],
         some pubKey,
         .error ext.listenErr⟩

/-- An entry of `os.ReadDir`'s result, reduced to what `convertDocx`
consumes: the file name. -/
structure FileEntry where
  name : String
deriving Repr, DecidableEq

/-- Outcomes of the filesystem calls made by `convertDocx`: the two
`os.MkdirAll` calls, `os.ReadDir`, and the per-file text extraction
(`extractTextFromDocx`), output write (`os.WriteFile`) and move
(`os.Rename`), each keyed by the paths the source passes. -/
structure FsExt where
  mkdirOutput : Except String Unit
  mkdirProcessed : Except String Unit
  readDir : Except String (List FileEntry)
  extractText : String → Except String String
  writeFile : String → String → Except String Unit
  rename : String → String → Except String Unit

/-- Go's `filepath.Ext` on a bare file name: the suffix starting at the
final dot, or `""` when the name has no dot. -/
def filepathExt (name : String) : String :=
  let l := name.toList
  if l.contains '.' then
    String.mk ('.' :: (l.reverse.takeWhile (fun c => c ≠ '.')).reverse)
  else ""

/-- Go's `strings.TrimSuffix`: remove the suffix when present, otherwise
return the string unchanged. -/
def trimSuffix (s suf : String) : String :=
  if s.endsWith suf then s.dropRight suf.length else s

/-- Per-file outcome recorded by the conversion loop: the file name and
whether its conversion completed (extract, write and move all succeeded)
or was abandoned after a logged error. -/
structure DocEvent where
  name : String
  ok : Bool
deriving Repr, DecidableEq

/-- Embeds the `for _, file := range files` loop of `convertDocx`: skip
non-`.docx` entries; extract the text, write the `.md` output and move the
original to `processed`, logging and continuing with the next file on any
per-file failure. Produces one `DocEvent` per attempted `.docx` file. -/
def processFiles (fs : FsExt) : List FileEntry → List DocEvent
  | [] => []
  | f :: rest =>
    if filepathExt f.name ≠ ".docx" then processFiles fs rest
    else
      let inputFilePath := "./documents/" ++ f.name
      match fs.extractText inputFilePath with
      | .error _ => ⟨f.name, false⟩ :: processFiles fs rest
      | .ok text =>
        let outputFilePath := "./data/" ++ (trimSuffix f.name ".docx" ++ ".md")
        match fs.writeFile outputFilePath text with
        | .error _ => ⟨f.name, false⟩ :: processFiles fs rest
        | .ok _ =>
          match fs.rename inputFilePath ("./documents/processed/" ++ f.name) with
          | .error _ => ⟨f.name, false⟩ :: processFiles fs rest
          | .ok _ => ⟨f.name, true⟩ :: processFiles fs rest

/-- Embeds `convertDocx` from `main.go`: create the output and processed
directories, read the input directory, then run the conversion loop. Only
the three initial filesystem calls can make it return an error; the loop
itself never does, and the function ends with `return nil`. -/
def convertDocx (fs : FsExt) : List DocEvent × Except String Unit :=
  match fs.mkdirOutput with
  | .error e => ([], .error ("impossibile creare la cartella di output: " ++ e))
  | .ok _ =>
    match fs.mkdirProcessed with
    | .error e => ([], .error ("impossibile creare la cartella processed: " ++ e))
    | .ok _ =>
      match fs.readDir with
      | .error e => ([], .error ("impossibile leggere la cartella ./documents: " ++ e))
      | .ok files => (processFiles fs files, .ok ())

/-- Embeds `main` from `main.go`, as the trace of observable events: a
`convertDocx` failure calls `log.Fatalf`, terminating the process before
`run` is ever entered; otherwise the trace is `run`'s. (Named `mainGo`
because Lean reserves `main` for an executable entry point.) -/
def mainGo (fs : FsExt) (ext : RunExt) (env : Env) : List Event :=
  match (convertDocx fs).2 with
  | .error _ => []
  | .ok _ => (run ext env).trace

/-! ### Helper lemmas about the key-selection loop -/

/-- The break-at-first-current loop agrees with selecting the first entry
whose flag is set (and yields `""` when there is none). -/
theorem findCurrentKey_eq_find (entries : List KeyEntry) :
    findCurrentKey entries =
      ((entries.find? fun k => k.isCurrent).map KeyEntry.key).getD "" := by
  induction entries with
  | nil => rfl
  | cons e rest ih =>
    by_cases h : e.isCurrent = true
    · simp [findCurrentKey, List.find?, h]
    · simp only [Bool.not_eq_true] at h
      simp [findCurrentKey, List.find?, h, ih]

/-- A nonempty selection result is the key of some entry marked current. -/
theorem findCurrentKey_mem (entries : List KeyEntry)
    (h : findCurrentKey entries ≠ "") :
    ∃ e ∈ entries, e.isCurrent = true ∧ e.key = findCurrentKey entries := by
  induction entries with
  | nil => exact absurd rfl h
  | cons e rest ih =>
    by_cases hc : e.isCurrent = true
    · exact ⟨e, List.mem_cons_self e rest, hc, by simp [findCurrentKey, hc]⟩
    · simp only [Bool.not_eq_true] at hc
      have h' : findCurrentKey rest ≠ "" := by
        simpa [findCurrentKey, hc] using h
      obtain ⟨x, hx, hcur, hkey⟩ := ih h'
      exact ⟨x, List.mem_cons_of_mem e hx, hcur, by simpa [findCurrentKey, hc] using hkey⟩

/-! ### Claims about configuration loading and the key fetch -/

/-- C7: `config.New` succeeds exactly when all four of PORT, FQDN,
CLIENT_ID and CLIENT_SECRET are nonempty in the environment; on success
the returned configuration carries exactly those four values, and each
missing variable (first in check order) yields an error naming it. -/
theorem config_new_spec (env : Env) :
    ((∃ info, (Config.New env).2 = .ok info) ↔
      (env "PORT" ≠ "" ∧ env "FQDN" ≠ "" ∧ env "CLIENT_ID" ≠ "" ∧
       env "CLIENT_SECRET" ≠ "")) ∧
    (∀ info, (Config.New env).2 = .ok info →
      info = ⟨env "PORT", env "FQDN", env "CLIENT_ID", env "CLIENT_SECRET"⟩) ∧
    (env "PORT" = "" →
      (Config.New env).2 = .error "PORT environment variable required") ∧
    (env "PORT" ≠ "" → env "FQDN" = "" →
      (Config.New env).2 = .error "FQDN environment variable required") ∧
    (env "PORT" ≠ "" → env "FQDN" ≠ "" → env "CLIENT_ID" = "" →
      (Config.New env).2 = .error "CLIENT_ID environment variable required") ∧
    (env "PORT" ≠ "" → env "FQDN" ≠ "" → env "CLIENT_ID" ≠ "" →
      env "CLIENT_SECRET" = "" →
      (Config.New env).2 = .error "CLIENT_SECRET environment variable required") := by
  by_cases h1 : env "PORT" = "" <;> by_cases h2 : env "FQDN" = "" <;>
    by_cases h3 : env "CLIENT_ID" = "" <;> by_cases h4 : env "CLIENT_SECRET" = "" <;>
    simp [Config.New, h1, h2, h3, h4]

/-- An environment holding every variable except CLIENT_SECRET. -/
def envNoSecret : Env := fun v =>
  if v = "PORT" then "8080"
  else if v = "FQDN" then "https://example.com"
  else if v = "CLIENT_ID" then "id123"
  else ""

/-- Witness for C7 at a concrete environment missing CLIENT_SECRET. -/
theorem config_new_spec_witness :
    envNoSecret "PORT" ≠ "" ∧ envNoSecret "FQDN" ≠ "" ∧
    envNoSecret "CLIENT_ID" ≠ "" ∧ envNoSecret "CLIENT_SECRET" = "" ∧
    (Config.New envNoSecret).2 = .error "CLIENT_SECRET environment variable required" :=
  ⟨by decide, by decide, by decide, by decide,
   (config_new_spec envNoSecret).2.2.2.2.2 (by decide) (by decide) (by decide) (by decide)⟩

/-- C6: when the HTTP call to the key-listing endpoint itself errors, or
when the response status is not 200, `fetchPublicKey` returns an error and
never a key. -/
theorem fetch_http_failure (ext : FetchExt) :
    (∀ e, ext.doRes = .error e →
      fetchPublicKey ext = .error ("failed to fetch public key: " ++ e)) ∧
    (∀ resp, ext.doRes = .ok resp → resp.statusCode ≠ 200 →
      fetchPublicKey ext = .error ("failed to fetch public key: " ++ resp.statusText)) := by
  constructor
  · intro e h
    simp [fetchPublicKey, h]
  · intro resp h hst
    simp [fetchPublicKey, h, hst]

/-- Key-fetch externals for a failed HTTP round trip. -/
def cExtHttpErr : FetchExt :=
  { doRes := .error "dial tcp: timeout"
    jsonDecode := fun _ => .error "unused"
    pemDecode := fun _ => none
    parsePKIX := fun _ => .error "unused" }

/-- Witness for C6 at a concrete failed HTTP call. -/
theorem fetch_http_failure_witness :
    cExtHttpErr.doRes = .error "dial tcp: timeout" ∧
    fetchPublicKey cExtHttpErr = .error "failed to fetch public key: dial tcp: timeout" :=
  ⟨rfl, (fetch_http_failure cExtHttpErr).1 "dial tcp: timeout" rfl⟩

/-- C5: for a parseable key-listing response the fetch selects the first
entry whose is-current flag is set; if the body does not parse as JSON, or
no entry is marked current, it fails with a format error instead of
returning a key. -/
theorem fetch_selects_first_current (ext : FetchExt) (resp : HttpResp)
    (hdo : ext.doRes = .ok resp) (hst : resp.statusCode = 200) :
    (∀ e, ext.jsonDecode resp.body = .error e →
      fetchPublicKey ext = .error ("failed to decode public key: " ++ e)) ∧
    (∀ entries, ext.jsonDecode resp.body = .ok entries →
      ((∀ k ∈ entries, k.isCurrent = false) →
        fetchPublicKey ext = .error "could not find current public key") ∧
      findCurrentKey entries =
        ((entries.find? fun k => k.isCurrent).map KeyEntry.key).getD "") := by
  constructor
  · intro e h
    simp [fetchPublicKey, hdo, hst, h]
  · intro entries hj
    refine ⟨fun hnone => ?_, findCurrentKey_eq_find entries⟩
    have hfind : entries.find? (fun k => k.isCurrent) = none := by
      rw [List.find?_eq_none]
      intro x hx
      simp [hnone x hx]
    have hraw : findCurrentKey entries = "" := by
      rw [findCurrentKey_eq_find, hfind]
      rfl
    simp [fetchPublicKey, hdo, hst, hj, hraw]

/-- The standard successful key-listing response used by witnesses. -/
def cResp : HttpResp := ⟨200, "200 OK", "BODY"⟩

/-- Key entries where the second entry is the first one marked current. -/
def cEntries : List KeyEntry := [⟨"", false⟩, ⟨"K1", true⟩, ⟨"K2", true⟩]

/-- Key-fetch externals whose JSON decoder yields `cEntries`. -/
def cExtSelect : FetchExt :=
  { doRes := .ok cResp
    jsonDecode := fun _ => .ok cEntries
    pemDecode := fun _ => none
    parsePKIX := fun _ => .error "unused" }

/-- Witness for C5 at a concrete parseable response. -/
theorem fetch_selects_first_current_witness :
    cExtSelect.doRes = .ok cResp ∧ cResp.statusCode = 200 ∧
    cExtSelect.jsonDecode cResp.body = .ok cEntries ∧
    findCurrentKey cEntries =
      ((cEntries.find? fun k => k.isCurrent).map KeyEntry.key).getD "" :=
  ⟨rfl, rfl, rfl,
   ((fetch_selects_first_current cExtSelect cResp rfl rfl).2 cEntries rfl).2⟩

/-- C4: when the selected current entry fails to decode as a PEM block, or
parses to something that is not an ECDSA key (or fails PKIX parsing), the
fetch returns an error and never a key. -/
theorem fetch_rejects_undecodable (ext : FetchExt) (resp : HttpResp)
    (entries : List KeyEntry)
    (hdo : ext.doRes = .ok resp) (hst : resp.statusCode = 200)
    (hj : ext.jsonDecode resp.body = .ok entries)
    (hbad : ext.pemDecode ((findCurrentKey entries).replace "\\n" "\n") = none ∨
      (∃ b, ext.pemDecode ((findCurrentKey entries).replace "\\n" "\n") = some b ∧
        ext.parsePKIX b = .ok ParsedKey.nonEcdsa) ∨
      (∃ b e, ext.pemDecode ((findCurrentKey entries).replace "\\n" "\n") = some b ∧
        ext.parsePKIX b = .error e)) :
    (fetchPublicKey ext).isOk = false := by
  by_cases hraw : findCurrentKey entries = ""
  · simp [fetchPublicKey, hdo, hst, hj, hraw, Except.isOk, Except.toBool]
  · rcases hbad with hpem | ⟨b, hpem, hparse⟩ | ⟨b, e, hpem, hparse⟩
    · simp [fetchPublicKey, hdo, hst, hj, hraw, decodeCurrentKey, hpem,
        Except.isOk, Except.toBool]
    · simp [fetchPublicKey, hdo, hst, hj, hraw, decodeCurrentKey, hpem, hparse,
        Except.isOk, Except.toBool]
    · simp [fetchPublicKey, hdo, hst, hj, hraw, decodeCurrentKey, hpem, hparse,
        Except.isOk, Except.toBool]

/-- Key-fetch externals whose selected key fails PEM decoding. -/
def cExtBadPem : FetchExt :=
  { doRes := .ok cResp
    jsonDecode := fun _ => .ok [⟨"NOTAKEY", true⟩]
    pemDecode := fun _ => none
    parsePKIX := fun _ => .error "unused" }

/-- Witness for C4 at a concrete response whose current key is not PEM. -/
theorem fetch_rejects_undecodable_witness :
    cExtBadPem.doRes = .ok cResp ∧ cResp.statusCode = 200 ∧
    cExtBadPem.jsonDecode cResp.body = .ok [⟨"NOTAKEY", true⟩] ∧
    cExtBadPem.pemDecode ((findCurrentKey [⟨"NOTAKEY", true⟩]).replace "\\n" "\n") = none ∧
    (fetchPublicKey cExtBadPem).isOk = false :=
  ⟨rfl, rfl, rfl, rfl,
   fetch_rejects_undecodable cExtBadPem cResp [⟨"NOTAKEY", true⟩] rfl rfl rfl (.inl rfl)⟩

/-! ### Claims about `run` and `main` -/

/-- The agent service's key is installed only from a successful fetch
result: `run` passes exactly `pubKey` from the `fetchPublicKey` branch to
`agent.NewService`. -/
theorem run_agentKey_eq_fetch (rext : RunExt) (env : Env) (k : EcdsaKey)
    (h : (run rext env).agentKey = some k) :
    rext.fetchRes = .ok k := by
  cases hf : rext.fetchRes with
  | error e => simp [run, hf] at h
  | ok pubKey =>
    cases hc : (Config.New env).2 with
    | error e => simp [run, hf, hc] at h
    | ok cfg =>
      cases hu : rext.urlParse cfg.FQDN with
      | error e => simp [run, hf, hc, hu] at h
      | ok s =>
        simp [run, hf, hc, hu] at h
        rw [h]

/-- A successful fetch passes through every stage: a 200 response, a
parsed body, a nonempty selected raw key, and a successful decode of that
raw key. -/
theorem fetchPublicKey_ok (ext : FetchExt) (k : EcdsaKey)
    (h : fetchPublicKey ext = .ok k) :
    ∃ resp entries, ext.doRes = .ok resp ∧ resp.statusCode = 200 ∧
      ext.jsonDecode resp.body = .ok entries ∧
      findCurrentKey entries ≠ "" ∧
      decodeCurrentKey ext (findCurrentKey entries) = .ok k := by
  unfold fetchPublicKey at h
  cases hdo : ext.doRes with
  | error e => rw [hdo] at h; simp at h
  | ok resp =>
    rw [hdo] at h
    by_cases hst : resp.statusCode = 200
    · simp only [hst, ne_eq, not_true_eq_false, if_false, reduceIte] at h
      cases hj : ext.jsonDecode resp.body with
      | error e => rw [hj] at h; simp at h
      | ok entries =>
        rw [hj] at h
        by_cases hraw : findCurrentKey entries = ""
        · simp [hraw] at h
        · refine ⟨resp, entries, rfl, hst, hj, hraw, ?_⟩
          simpa [hraw] using h
    · simp [hst] at h

/-- C3: any key `run` installs into the agent service decodes from an
entry of the fetched key list whose is-current flag is set — a key marked
not current is never installed. -/
theorem agent_key_was_marked_current (fext : FetchExt) (rext : RunExt)
    (env : Env) (k : EcdsaKey)
    (hfetch : rext.fetchRes = fetchPublicKey fext)
    (hinstall : (run rext env).agentKey = some k) :
    ∃ resp entries, fext.doRes = .ok resp ∧
      fext.jsonDecode resp.body = .ok entries ∧
      ∃ e ∈ entries, e.isCurrent = true ∧
        decodeCurrentKey fext e.key = .ok k := by
  have hok : fetchPublicKey fext = .ok k := by
    rw [← hfetch]
    exact run_agentKey_eq_fetch rext env k hinstall
  obtain ⟨resp, entries, hdo, _, hj, hraw, hdec⟩ := fetchPublicKey_ok fext k hok
  obtain ⟨e, he, hcur, hkey⟩ := findCurrentKey_mem entries hraw
  exact ⟨resp, entries, hdo, hj, e, he, hcur, by rw [hkey]; exact hdec⟩

/-- Key-fetch externals that succeed end to end with key `⟨"K"⟩`. -/
def cExtOk : FetchExt :=
  { doRes := .ok cResp
    jsonDecode := fun _ => .ok [⟨"PEMKEY", true⟩]
    pemDecode := fun _ => some ⟨"B"⟩
    parsePKIX := fun _ => .ok (ParsedKey.ecdsa ⟨"K"⟩) }

/-- Run externals wired to the successful concrete fetch. -/
def cRunExtOk : RunExt :=
  { fetchRes := fetchPublicKey cExtOk
    urlParse := fun s => .ok s
    listenErr := "http: Server closed" }

/-- An environment holding all four required variables. -/
def envAll : Env := fun v =>
  if v = "PORT" then "8080"
  else if v = "FQDN" then "https://example.com"
  else if v = "CLIENT_ID" then "id123"
  else if v = "CLIENT_SECRET" then "s3cret"
  else ""

/-- Witness for C3 at a concrete successful fetch and run. -/
theorem agent_key_was_marked_current_witness :
    cRunExtOk.fetchRes = fetchPublicKey cExtOk ∧
    (run cRunExtOk envAll).agentKey = some ⟨"K"⟩ ∧
    ∃ resp entries, cExtOk.doRes = .ok resp ∧
      cExtOk.jsonDecode resp.body = .ok entries ∧
      ∃ e ∈ entries, e.isCurrent = true ∧
        decodeCurrentKey cExtOk e.key = .ok ⟨"K"⟩ :=
  ⟨rfl, rfl, agent_key_was_marked_current cExtOk cRunExtOk envAll ⟨"K"⟩ rfl rfl⟩

/-- C2 (amended): `run` performs exactly one key fetch, as its very first
action; no later event of any execution is a key fetch, so no fresh key
can ever be fetched after startup and there is no refresh-and-retry path
for a stale key. -/
theorem run_fetches_key_exactly_once (rext : RunExt) (env : Env) :
    ∃ rest, (run rext env).trace = Event.keyFetch :: rest ∧
      Event.keyFetch ∉ rest := by
  cases hf : rext.fetchRes with
  | error e => exact ⟨[], by simp [run, hf], by simp⟩
  | ok pubKey =>
    cases hc : (Config.New env).2 with
    | error e => exact ⟨[], by simp [run, hf, hc], by simp⟩
    | ok cfg =>
      cases hu : rext.urlParse cfg.FQDN with
      | error e => exact ⟨[], by simp [run, hf, hc, hu], by simp⟩
      | ok s =>
        exact ⟨[.handle "/auth/authorization", .handle "/auth/callback",
                .handle "/agent", .listen cfg.Port],
               by simp [run, hf, hc, hu], by simp⟩

/-- Counterexample for C2 as stated: in the concrete complete execution
that reaches the listening state, the whole event trace contains exactly
one key fetch, at position 0 — before the server listens — so no key-cache
refresh or re-fetch ever happens after startup, contradicting the claimed
`KeyStale` refresh-and-retry behaviour. -/
theorem no_key_refresh_after_startup_cex :
    (run cRunExtOk envAll).trace =
      [Event.keyFetch, Event.handle "/auth/authorization",
       Event.handle "/auth/callback", Event.handle "/agent",
       Event.listen "8080"] ∧
    ((run cRunExtOk envAll).trace.filter (fun e => e == Event.keyFetch)).length = 1 := by
  refine ⟨by decide, by decide⟩

/-- C1: on the concrete error-terminated execution of `run` in which all
four configuration variables are present, the OAuth client secret is
printed to standard output (by `config.New`) even though the execution
ends in an error — the secret-bearing line is in the output and the
result is an error. -/
theorem client_secret_printed_on_error_path :
    "CLIENT_SECRET: s3cret" ∈ (run cRunExtOk envAll).output ∧
    (run cRunExtOk envAll).result = .error "http: Server closed" := by
  refine ⟨by decide, rfl⟩

/-- C10: the server is never started when document conversion fails or
when the startup key fetch fails: no `listen` event occurs in `main`'s
trace in either case. -/
theorem server_not_started_on_failure (fs : FsExt) (rext : RunExt) (env : Env) :
    (∀ e, (convertDocx fs).2 = .error e →
      ∀ p, Event.listen p ∉ mainGo fs rext env) ∧
    (∀ e, rext.fetchRes = .error e →
      ∀ p, Event.listen p ∉ mainGo fs rext env) := by
  constructor
  · intro e h p
    simp [mainGo, h]
  · intro e h p
    unfold mainGo
    cases hc : (convertDocx fs).2 with
    | error e2 => simp
    | ok u => simp [run, h]

/-- Filesystem externals whose first directory creation fails. -/
def cFsFail : FsExt :=
  { mkdirOutput := .error "disk full"
    mkdirProcessed := .ok ()
    readDir := .ok []
    extractText := fun _ => .error "unused"
    writeFile := fun _ _ => .ok ()
    rename := fun _ _ => .ok () }

/-- Witness for C10 at a concrete failing directory creation. -/
theorem server_not_started_on_failure_witness :
    (convertDocx cFsFail).2 = .error "impossibile creare la cartella di output: disk full" ∧
    Event.listen "8080" ∉ mainGo cFsFail cRunExtOk envAll :=
  ⟨rfl, (server_not_started_on_failure cFsFail cRunExtOk envAll).1 _ rfl "8080"⟩

/-! ### Claim about the XML-tag stripper -/

/-- Spec-side companion of the tag loop: skip to just past the next `>`
(or to the end when the tag is never closed). -/
def dropTag : List Char → List Char
  | [] => []
  | c :: rest => if c = '>' then rest else dropTag rest

/-- `dropTag` never grows its input. -/
theorem dropTag_length_le (l : List Char) : (dropTag l).length ≤ l.length := by
  induction l with
  | nil => simp [dropTag]
  | cons c rest ih =>
    by_cases h : c = '>'
    · simp [dropTag, h]
    · simp only [dropTag, h, if_false, reduceIte, List.length_cons]
      exact Nat.le_trans ih (Nat.le_succ _)

/-- Stated from the claim's wording, to be compared with the source's
`stripChars`: remove every character that occurs between a `<` and the
next `>`, together with the brackets themselves. -/
def eraseTagSpans : List Char → List Char
  | [] => []
  | c :: rest =>
    if c = '<' then eraseTagSpans (dropTag rest)
    else if c = '>' then eraseTagSpans rest
    else c :: eraseTagSpans rest
termination_by l => l.length
decreasing_by
  · exact Nat.lt_succ_of_le (dropTag_length_le rest)
  · exact Nat.lt_succ_of_le (Nat.le_refl _)
  · exact Nat.lt_succ_of_le (Nat.le_refl _)

/-- The source's character loop agrees with the span-removal description:
with the flag off it equals `eraseTagSpans`, with the flag on it first
skips to the closing `>`. -/
theorem stripChars_eq_eraseTagSpans (l : List Char) :
    stripChars false l = eraseTagSpans l ∧
    stripChars true l = eraseTagSpans (dropTag l) := by
  induction l with
  | nil => constructor <;> simp [stripChars, eraseTagSpans, dropTag]
  | cons c rest ih =>
    by_cases h1 : c = '<'
    · constructor
      · rw [h1]
        show stripChars true rest = eraseTagSpans ('<' :: rest)
        rw [ih.2, eraseTagSpans]
        simp
      · rw [h1]
        show stripChars true rest = eraseTagSpans (dropTag ('<' :: rest))
        rw [ih.2, dropTag]
        simp
    · by_cases h2 : c = '>'
      · constructor
        · rw [h2]
          show stripChars false rest = eraseTagSpans ('>' :: rest)
          rw [ih.1, eraseTagSpans]
          simp
        · rw [h2]
          show stripChars false rest = eraseTagSpans (dropTag ('>' :: rest))
          rw [ih.1, dropTag]
          simp
      · constructor
        · show stripChars false (c :: rest) = eraseTagSpans (c :: rest)
          rw [stripChars, eraseTagSpans]
          simp [h1, h2, ih.1]
        · show stripChars true (c :: rest) = eraseTagSpans (dropTag (c :: rest))
          rw [stripChars, dropTag]
          simp [h1, h2, ih.2]

/-- The loop emits neither `<` nor `>` in any state. -/
theorem stripChars_no_angle (b : Bool) (l : List Char) :
    '<' ∉ stripChars b l ∧ '>' ∉ stripChars b l := by
  induction l generalizing b with
  | nil => simp [stripChars]
  | cons c rest ih =>
    by_cases h1 : c = '<'
    · simpa [stripChars, h1] using ih true
    · by_cases h2 : c = '>'
      · simpa [stripChars, h1, h2] using ih false
      · cases b with
        | true => simpa [stripChars, h1, h2] using ih true
        | false =>
          refine ⟨?_, ?_⟩ <;> simp [stripChars, h1, h2]
          · exact ⟨fun hc => h1 hc.symm, (ih false).1⟩
          · exact ⟨fun hc => h2 hc.symm, (ih false).2⟩

/-- Membership in a trimmed list implies membership in the original. -/
theorem mem_trimSpace {c : Char} {l : List Char} (h : c ∈ trimSpace l) : c ∈ l := by
  unfold trimSpace at h
  rw [List.mem_reverse] at h
  have h1 := (List.dropWhile_sublist goIsSpace).mem h
  rw [List.mem_reverse] at h1
  exact (List.dropWhile_sublist goIsSpace).mem h1

/-- The head surviving `dropWhile p` fails `p`. -/
theorem head_dropWhile_false (p : Char → Bool) (l : List Char) (c : Char)
    (h : (l.dropWhile p).head? = some c) : p c = false := by
  induction l with
  | nil => simp [List.dropWhile] at h
  | cons d rest ih =>
    by_cases hd : p d = true
    · rw [List.dropWhile_cons_of_pos hd] at h
      exact ih h
    · rw [List.dropWhile_cons_of_neg hd] at h
      simp only [List.head?_cons, Option.some.injEq] at h
      rw [← h]
      exact Bool.not_eq_true _ |>.mp hd

/-- A nonempty `dropWhile` keeps the last element of its input. -/
theorem getLast?_dropWhile (p : Char → Bool) (l : List Char)
    (h : l.dropWhile p ≠ []) : (l.dropWhile p).getLast? = l.getLast? := by
  induction l with
  | nil => simp [List.dropWhile] at h
  | cons d rest ih =>
    by_cases hd : p d = true
    · rw [List.dropWhile_cons_of_pos hd] at h ⊢
      cases hrest : rest with
      | nil => rw [hrest] at h; simp [List.dropWhile] at h
      | cons e es =>
        rw [← hrest]
        rw [ih h, hrest, List.getLast?_cons_cons]
    · rw [List.dropWhile_cons_of_neg hd]

/-- C8: the output of `stripXMLTags` carries no `<` or `>`, omits every
character that occurs between a `<` and the next `>` (it coincides with
trimming the span-erased input), and has no leading or trailing
whitespace. -/
theorem stripXMLTags_spec (l : List Char) :
    '<' ∉ stripXMLTags l ∧ '>' ∉ stripXMLTags l ∧
    stripXMLTags l = trimSpace (eraseTagSpans l) ∧
    (∀ c, (stripXMLTags l).head? = some c → goIsSpace c = false) ∧
    (∀ c, (stripXMLTags l).getLast? = some c → goIsSpace c = false) := by
  refine ⟨?_, ?_, ?_, ?_, ?_⟩
  · intro hmem
    exact (stripChars_no_angle false l).1 (mem_trimSpace hmem)
  · intro hmem
    exact (stripChars_no_angle false l).2 (mem_trimSpace hmem)
  · unfold stripXMLTags
    rw [(stripChars_eq_eraseTagSpans l).1]
  · intro c hc
    unfold stripXMLTags trimSpace at hc
    rw [List.head?_reverse] at hc
    have hne : (((stripChars false l).dropWhile goIsSpace).reverse.dropWhile goIsSpace) ≠ [] := by
      intro hnil
      rw [hnil] at hc
      simp at hc
    rw [getLast?_dropWhile goIsSpace _ hne, List.getLast?_reverse] at hc
    exact head_dropWhile_false goIsSpace _ c hc
  · intro c hc
    unfold stripXMLTags trimSpace at hc
    rw [List.getLast?_reverse] at hc
    exact head_dropWhile_false goIsSpace _ c hc

/-- Witness for C8 at a concrete tagged string. -/
theorem stripXMLTags_spec_witness :
    stripXMLTags " <a>hi</a> ".toList = ['h', 'i'] ∧
    (stripXMLTags " <a>hi</a> ".toList).head? = some 'h' ∧
    goIsSpace 'h' = false ∧
    (stripXMLTags " <a>hi</a> ".toList).getLast? = some 'i' ∧
    goIsSpace 'i' = false :=
  ⟨by decide, by decide,
   (stripXMLTags_spec " <a>hi</a> ".toList).2.2.2.1 'h' (by decide),
   by decide,
   (stripXMLTags_spec " <a>hi</a> ".toList).2.2.2.2 'i' (by decide)⟩

/-! ### Claim about document conversion -/

/-- Events of the conversion loop survive prepending another directory
entry: the loop only ever conses on or skips. -/
theorem processFiles_mem_lift (fs : FsExt) (g : FileEntry)
    (rest : List FileEntry) (x : DocEvent)
    (hx : x ∈ processFiles fs rest) : x ∈ processFiles fs (g :: rest) := by
  by_cases hg : filepathExt g.name = ".docx"
  · cases he : fs.extractText ("./documents/" ++ g.name) with
    | error e => simp [processFiles, hg, he, hx]
    | ok text =>
      cases hw : fs.writeFile ("./data/" ++ (trimSuffix g.name ".docx" ++ ".md")) text with
      | error e => simp [processFiles, hg, he, hw, hx]
      | ok u =>
        cases hr : fs.rename ("./documents/" ++ g.name) ("./documents/processed/" ++ g.name) with
        | error e => simp [processFiles, hg, he, hw, hr, hx]
        | ok u => simp [processFiles, hg, he, hw, hr, hx]
  · simpa [processFiles, hg] using hx

/-- Every `.docx` entry of the listing is attempted by the loop,
regardless of how the other entries fare. -/
theorem processFiles_covers (fs : FsExt) (files : List FileEntry) :
    ∀ f ∈ files, filepathExt f.name = ".docx" →
      ∃ b, DocEvent.mk f.name b ∈ processFiles fs files := by
  induction files with
  | nil => simp
  | cons g rest ih =>
    intro f hf hdocx
    rcases List.mem_cons.mp hf with hfg | hmem
    · subst hfg
      cases he : fs.extractText ("./documents/" ++ f.name) with
      | error e => exact ⟨false, by simp [processFiles, hdocx, he]⟩
      | ok text =>
        cases hw : fs.writeFile ("./data/" ++ (trimSuffix f.name ".docx" ++ ".md")) text with
        | error e => exact ⟨false, by simp [processFiles, hdocx, he, hw]⟩
        | ok u =>
          cases hr : fs.rename ("./documents/" ++ f.name) ("./documents/processed/" ++ f.name) with
          | error e => exact ⟨false, by simp [processFiles, hdocx, he, hw, hr]⟩
          | ok u => exact ⟨true, by simp [processFiles, hdocx, he, hw, hr]⟩
    · obtain ⟨b, hb⟩ := ih f hmem hdocx
      exact ⟨b, processFiles_mem_lift fs g rest _ hb⟩

/-- C9: once the two directory creations and the directory read succeed,
`convertDocx` returns success no matter how individual files fare, and
every `.docx` file in the listing is still attempted; it returns an error
exactly from a failed directory creation or directory read. -/
theorem convert_docx_spec (fs : FsExt) :
    (∀ files, fs.mkdirOutput = .ok () → fs.mkdirProcessed = .ok () →
      fs.readDir = .ok files →
      (convertDocx fs).2 = .ok () ∧
      ∀ f ∈ files, filepathExt f.name = ".docx" →
        ∃ b, DocEvent.mk f.name b ∈ (convertDocx fs).1) ∧
    (∀ e, fs.mkdirOutput = .error e →
      (convertDocx fs).2 = .error ("impossibile creare la cartella di output: " ++ e)) ∧
    (∀ e, fs.mkdirOutput = .ok () → fs.mkdirProcessed = .error e →
      (convertDocx fs).2 = .error ("impossibile creare la cartella processed: " ++ e)) ∧
    (∀ e, fs.mkdirOutput = .ok () → fs.mkdirProcessed = .ok () →
      fs.readDir = .error e →
      (convertDocx fs).2 = .error ("impossibile leggere la cartella ./documents: " ++ e)) := by
  refine ⟨?_, ?_, ?_, ?_⟩
  · intro files h1 h2 h3
    constructor
    · simp [convertDocx, h1, h2, h3]
    · intro f hf hdocx
      have := processFiles_covers fs files f hf hdocx
      simpa [convertDocx, h1, h2, h3] using this
  · intro e h1
    simp [convertDocx, h1]
  · intro e h1 h2
    simp [convertDocx, h1, h2]
  · intro e h1 h2 h3
    simp [convertDocx, h1, h2, h3]

/-- A concrete directory listing with two `.docx` files and one other. -/
def cFiles : List FileEntry := [⟨"a.docx"⟩, ⟨"b.txt"⟩, ⟨"c.docx"⟩]

/-- Filesystem externals where setup succeeds but extraction fails on
`a.docx` and succeeds elsewhere. -/
def cFsOk : FsExt :=
  { mkdirOutput := .ok ()
    mkdirProcessed := .ok ()
    readDir := .ok cFiles
    extractText := fun p =>
      if p = "./documents/a.docx" then .error "document.xml non trovato" else .ok "text"
    writeFile := fun _ _ => .ok ()
    rename := fun _ _ => .ok () }

/-- Witness for C9 at a concrete listing with one failing file. -/
theorem convert_docx_spec_witness :
    cFsOk.mkdirOutput = .ok () ∧ cFsOk.mkdirProcessed = .ok () ∧
    cFsOk.readDir = .ok cFiles ∧
    (⟨"c.docx"⟩ : FileEntry) ∈ cFiles ∧ filepathExt "c.docx" = ".docx" ∧
    (convertDocx cFsOk).2 = .ok () ∧
    ∃ b, DocEvent.mk "c.docx" b ∈ (convertDocx cFsOk).1 :=
  ⟨rfl, rfl, rfl, by decide, by decide,
   ((convert_docx_spec cFsOk).1 cFiles rfl rfl rfl).1,
   ((convert_docx_spec cFsOk).1 cFiles rfl rfl rfl).2 ⟨"c.docx"⟩ (by decide) (by decide)⟩
